import Mathlib

/-!
Verification development for the incremental N-body trajectory engine
(Principia core): trajectory store, ephemeris prolongation, task bundle,
prognosticator, geopotential damping and rotating-body construction.

The C++ sources available give the headers, tests, benchmarks and callers
of the core classes; where the implementation itself is absent, the
corresponding Lean definition is modelled from the specification and says
so in its doc comment.
-/

namespace Principia

/-- Degrees of freedom of one body at one instant: position and velocity,
in a one-dimensional rational model of the reference frame. -/
structure Dof where
  q : ℚ
  v : ℚ
deriving DecidableEq, Repr

/-- Errors raised by trajectory queries. -/
inductive TrajError where
  | argumentError
deriving DecidableEq, Repr

/-- Linear interpolation between the samples `(t1, d1)` and `(t2, d2)`,
evaluated at `t`.  This is the local fit used by `evaluateDof`. -/
def lerp (t1 : ℤ) (d1 : Dof) (t2 : ℤ) (d2 : Dof) (t : ℤ) : Dof :=
  { q := d1.q + (d2.q - d1.q) * (((t : ℚ) - (t1 : ℚ)) / ((t2 : ℚ) - (t1 : ℚ))),
    v := d1.v + (d2.v - d1.v) * (((t : ℚ) - (t1 : ℚ)) / ((t2 : ℚ) - (t1 : ℚ))) }

/-- Modelled from the spec: the locally fitted interpolant of
`DiscreteTrajectory::EvaluatePosition` (implementation not under src/).
Walks the time-ordered samples and interpolates between the bracketing
pair around `t`. -/
def interpAt : List (ℤ × Dof) → ℤ → Dof
  | [], _ => ⟨0, 0⟩
  | [(_, d)], _ => d
  | (t1, d1) :: (t2, d2) :: rest, t =>
      if t ≤ t2 then lerp t1 d1 t2 d2 t else interpAt ((t2, d2) :: rest) t

/-- Modelled from the spec: `EvaluatePosition`/`EvaluateDegreesOfFreedom(time)`
of the trajectory store (implementation not under src/): interpolates a
locally fitted polynomial when `time` lies in `[earliest retained, latest
computed]`, and fails with an `ArgumentError` — a fatal contract violation,
not recovered — when it lies outside. -/
def evaluateDof (samples : List (ℤ × Dof)) (t : ℤ) : Except TrajError Dof :=
  match samples.head?, samples.getLast? with
  | some f, some l =>
      if t < f.1 ∨ l.1 < t then Except.error TrajError.argumentError
      else Except.ok (interpAt samples t)
  | _, _ => Except.error TrajError.argumentError

/-- The root branch of a discrete trajectory, together with the pin points of
the currently live guards. -/
structure RootTrajectory where
  samples : List (ℤ × Dof)
  guards : List ℤ
deriving DecidableEq

/-- The minimum of the requested forget time `t` and all live pin points. -/
def pinMin (t : ℤ) (guards : List ℤ) : ℤ :=
  guards.foldl min t

/-- Modelled from the spec: `ForgetBefore(time)` on the root branch
(implementation not under src/): removes exactly the prefix samples whose
time is strictly before `min(time, all live pin points)`; a request that
removes nothing is not an error (the function is total). -/
def forgetBefore (traj : RootTrajectory) (t : ℤ) : RootTrajectory :=
  { traj with
    samples := traj.samples.filter (fun s => decide (pinMin t traj.guards ≤ s.1)) }

/-- Modelled from the spec: `EventuallyForgetBefore(t)` is advisory and drops
the samples no caller can still need, bounded by live guards; the model
performs the bounded forgetting at the call itself (the spec allows any
point no later than the next safe opportunity). -/
def eventuallyForgetBefore (traj : RootTrajectory) (t : ℤ) : RootTrajectory :=
  forgetBefore traj t

/-- The combined state of all massive bodies: one `Dof` per body. -/
abbrev SysState := List Dof

/-- The fixed-step integration parameters of an ephemeris: the pluggable
integrator, consumed through its abstract deterministic step contract (one
step advances the whole system state), and the fixed step size (a positive
whole number of time units). -/
structure FixedStepParameters where
  integrator : SysState → SysState
  step : ℕ
  step_pos : 0 < step

/-- Modelled from the spec: the `Ephemeris` (implementation not under src/),
created once from bodies, an initial state and an epoch, and mutated only by
prolongation.  `steps` counts the fixed integrator steps taken so far, so the
computed horizon is `epoch + steps * step`. -/
structure Ephemeris where
  bodies : List ℚ
  initialState : SysState
  epoch : ℤ
  integrator : SysState → SysState
  step : ℕ
  step_pos : 0 < step
  steps : ℕ

/-- Modelled from the spec: construction of an `Ephemeris` from bodies, the
initial state, the epoch and fixed-step parameters (`MakeEphemeris` in the
callers); no integration has happened yet. -/
def mkEphemeris (bodies : List ℚ) (initialState : SysState) (epoch : ℤ)
    (params : FixedStepParameters) : Ephemeris :=
  { bodies := bodies
    initialState := initialState
    epoch := epoch
    integrator := params.integrator
    step := params.step
    step_pos := params.step_pos
    steps := 0 }

/-- The system state after `k` integrator steps. -/
def stateAt (e : Ephemeris) (k : ℕ) : SysState :=
  e.integrator^[k] e.initialState

/-- The latest computed instant (the current horizon `t_max`). -/
def tMaxE (e : Ephemeris) : ℤ :=
  e.epoch + (e.steps : ℤ) * (e.step : ℤ)

/-- The samples appended so far: one `(time, state)` pair per integrator step,
starting at the epoch. -/
def ephSamples (e : Ephemeris) : List (ℤ × SysState) :=
  (List.range (e.steps + 1)).map
    (fun (k : ℕ) => (e.epoch + (k : ℤ) * (e.step : ℤ), stateAt e k))

theorem tMaxE_succ (e : Ephemeris) :
    tMaxE { e with steps := e.steps + 1 } = tMaxE e + (e.step : ℤ) := by
  simp only [tMaxE]
  push_cast
  ring

/-- Modelled from the spec: `Prolong(t)`: if `t` is at or before the current
horizon, a no-op; otherwise runs the configured fixed-step integrator from
the last computed instant until the horizon reaches `t`, appending one
sample per step. -/
def prolong (e : Ephemeris) (t : ℤ) : Ephemeris :=
  if _h : t ≤ tMaxE e then e
  else prolong { e with steps := e.steps + 1 } t
termination_by (t - tMaxE e).toNat
decreasing_by
  rw [tMaxE_succ]
  have hp : 0 < e.step := e.step_pos
  omega

/-- The trajectory of body `b` in the ephemeris: its `Dof` at each sample. -/
def bodyTrajectory (e : Ephemeris) (b : ℕ) : List (ℤ × Dof) :=
  (ephSamples e).map (fun s => (s.1, s.2.getD b ⟨0, 0⟩))

/-- `EvaluatePosition(body, t)` on an ephemeris: delegates to the trajectory
store of that body. -/
def ephEvaluatePosition (e : Ephemeris) (b : ℕ) (t : ℤ) : Except TrajError ℚ :=
  (evaluateDof (bodyTrajectory e b) t).map Dof.q

/-- Completion status of a bundle task, after `base::Status`: OK or an error
code. -/
inductive Status where
  | ok
  | error (code : ℕ)
deriving DecidableEq, Repr

/-- A bundle task: a zero-argument unit of work that acts on the shared state
and reports success or failure. -/
abbrev BundleTask (σ : Type) := σ → σ × Status

/-- The state after running every task in order, ignoring their statuses:
all tasks run to completion regardless of individual failures. -/
def applyAll {σ : Type} (tasks : List (BundleTask σ)) (s : σ) : σ :=
  tasks.foldl (fun st task => (task st).1) s

/-- The statuses recorded by the tasks, in execution order. -/
def recordedStatuses {σ : Type} : List (BundleTask σ) → σ → List Status
  | [], _ => []
  | task :: rest, s => (task s).2 :: recordedStatuses rest (task s).1

/-- The first recorded failure of a status list, or OK if every task
succeeded. -/
def firstFailure : List Status → Status
  | [] => Status.ok
  | Status.ok :: rest => firstFailure rest
  | Status.error c :: _ => Status.error c

/-- Modelled from the spec: `Bundle::Join()` (implementation not under src/):
runs every enqueued task to completion — no fail-fast cancellation — and
reports the first recorded failure, if any, after the drain. -/
def bundleJoin {σ : Type} (tasks : List (BundleTask σ)) (s : σ) : σ × Status :=
  tasks.foldl
    (fun (acc : σ × Status) task =>
      ((task acc.1).1,
       match acc.2 with
       | Status.ok => (task acc.1).2
       | Status.error c => Status.error c))
    (s, Status.ok)

/-- State of a prognosticator: the single pending-parameters slot, the
parameters of the computation in progress, and the published results. -/
structure Prognosticator (P R : Type) where
  pending : Option P
  computing : Option P
  published : List R

/-- Events in the life of a prognosticator: a caller submits parameters, the
worker picks up the pending parameters, the worker finishes a computation. -/
inductive ProgEvent (P : Type) where
  | submit (p : P)
  | take
  | finish

/-- Modelled from the spec: one transition of the prognosticator
(`Vessel::RefreshPrediction` / the prognosticator worker, implementation not
under src/).  A submission atomically overwrites the single pending slot;
the worker consumes the slot to start computing; on finishing it publishes
the result unless the request has been superseded (a newer pending request
exists), in which case the result is discarded silently. -/
def progStep {P R : Type} (compute : P → R) (s : Prognosticator P R) :
    ProgEvent P → Prognosticator P R
  | ProgEvent.submit p => { s with pending := some p }
  | ProgEvent.take =>
      match s.pending with
      | some p => { s with pending := none, computing := some p }
      | none => s
  | ProgEvent.finish =>
      match s.computing with
      | some p =>
          { s with
            computing := none,
            published :=
              if s.pending.isSome then s.published
              else s.published ++ [compute p] }
      | none => s

/-- A prognosticator run: fold the events over the initial state. -/
def progRun {P R : Type} (compute : P → R) (s : Prognosticator P R)
    (events : List (ProgEvent P)) : Prognosticator P R :=
  events.foldl (progStep compute) s

/-- The scenario of the spec: three requests are submitted before the first
computation finishes (the second and third while the worker is computing the
first). -/
def threeRequestsScenario {P : Type} (p1 p2 p3 : P) : List (ProgEvent P) :=
  [ProgEvent.submit p1, ProgEvent.take, ProgEvent.submit p2,
   ProgEvent.submit p3, ProgEvent.finish, ProgEvent.take, ProgEvent.finish]

/-- A length, extended with the infinite value used by the default-constructed
damping thresholds. -/
inductive ExtLength where
  | fin (val : ℚ)
  | inf
deriving DecidableEq, Repr

/-- Multiplication of an extended length by 3; three times infinity is
infinity. -/
def ExtLength.triple : ExtLength → ExtLength
  | ExtLength.fin q => ExtLength.fin (3 * q)
  | ExtLength.inf => ExtLength.inf

/-- Ordering of extended lengths: infinity is the top element. -/
def ExtLength.le : ExtLength → ExtLength → Prop
  | _, ExtLength.inf => True
  | ExtLength.inf, ExtLength.fin _ => False
  | ExtLength.fin a, ExtLength.fin b => a ≤ b

instance (a b : ExtLength) : Decidable (ExtLength.le a b) := by
  cases a <;> cases b <;> simp only [ExtLength.le] <;> infer_instance

/-- Specification of the damping of a spherical harmonic, acting as a radial
multiplier σ on the potential.  The sigmoid coefficients are those of the
blending polynomial in monomial basis; the constant term is always 0. -/
structure HarmonicDamping where
  outer_threshold : ExtLength
  inner_threshold : ExtLength
  sigmoid_c1 : ℚ
  sigmoid_c2 : ℚ
  sigmoid_c3 : ℚ
deriving DecidableEq

/-- The default-constructed damping: both thresholds are infinite and the
harmonic is never damped. -/
def defaultHarmonicDamping : HarmonicDamping :=
  { outer_threshold := ExtLength.inf
    inner_threshold := ExtLength.inf
    sigmoid_c1 := 0
    sigmoid_c2 := 0
    sigmoid_c3 := 0 }

/-- Modelled from the spec: the `HarmonicDamping` constructor (implementation
not under src/): from an inner threshold it sets the outer threshold to three
times the inner one, and the sigmoid coefficients to those of the unique
cubic that blends smoothly (with continuous value and first derivative) from
1 at the inner threshold to 0 at the outer threshold, with zero constant
term. -/
def mkHarmonicDamping (d : ℚ) : HarmonicDamping :=
  { outer_threshold := ExtLength.fin (3 * d)
    inner_threshold := ExtLength.fin d
    sigmoid_c1 := 9 / (4 * d)
    sigmoid_c2 := -3 / (2 * d ^ 2)
    sigmoid_c3 := 1 / (4 * d ^ 3) }

/-- The blending polynomial of the damping with inner threshold `d`,
evaluated at distance `r` (for `r` between the thresholds). -/
def sigmoid (d r : ℚ) : ℚ :=
  (9 / (4 * d)) * r + (-3 / (2 * d ^ 2)) * r ^ 2 + (1 / (4 * d ^ 3)) * r ^ 3

/-- The first derivative of the blending polynomial with respect to the
distance. -/
def sigmoidDeriv (d r : ℚ) : ℚ :=
  9 / (4 * d) + 2 * (-3 / (2 * d ^ 2)) * r + 3 * (1 / (4 * d ^ 3)) * r ^ 2

/-- Modelled from the spec: the damping factor σ applied to a harmonic's
contribution at distance `r` from the body's centre, for a damping with
inner threshold `d` (`ComputeDampedRadialQuantities`, implementation not
under src/): full strength inside the inner threshold, zero beyond the outer
threshold, and the blending polynomial in between. -/
def dampingSigma (d r : ℚ) : ℚ :=
  if r ≤ d then 1
  else if 3 * d ≤ r then 0
  else sigmoid d r

/-- The suffix maxima of a list: element `i` of the result is the maximum of
elements `i` and onwards of the input. -/
def suffixMaxes : List ℚ → List ℚ
  | [] => []
  | c :: rest => max c ((suffixMaxes rest).headD c) :: suffixMaxes rest

/-- The geopotential model of an oblate body: the per-degree dampings and the
damping of the degree-2 sectoral harmonics. -/
structure Geopotential where
  degree_damping : List HarmonicDamping
  sectoral_damping : HarmonicDamping

/-- Modelled from the spec: the `Geopotential` constructor (implementation not
under src/).  `candidates` are the per-degree damping-onset distances
derived from the tolerance for degrees 2 and above, `sectoral` that of the
degree-2 sectoral harmonics.  Degrees 0 and 1 have infinite thresholds and
are not used.  The spec requires the monotonic ordering — lower-degree
dampings keep effect out to farther distances — so degree n receives the
farthest onset needed by that degree or any higher one, and the sectoral
threshold lies between the thresholds of degrees 3 and 2. -/
def mkGeopotential (candidates : List ℚ) (sectoral : ℚ) : Geopotential :=
  { degree_damping :=
      defaultHarmonicDamping :: defaultHarmonicDamping ::
        (suffixMaxes candidates).map mkHarmonicDamping
    sectoral_damping :=
      mkHarmonicDamping
        (min (max sectoral ((suffixMaxes candidates).getD 1 0))
             ((suffixMaxes candidates).getD 0 0)) }

/-- The ordering of dampings by their thresholds: `hdLe a b` when `a` damps
from no farther out than `b`. -/
def hdLe (a b : HarmonicDamping) : Prop :=
  ExtLength.le a.inner_threshold b.inner_threshold

instance (a b : HarmonicDamping) : Decidable (hdLe a b) := by
  unfold hdLe
  infer_instance

/-- The reverse ordering of dampings: `hdGe a b` when `a` keeps effect out to
at least as far a distance as `b`. -/
def hdGe (a b : HarmonicDamping) : Prop :=
  hdLe b a

instance (a b : HarmonicDamping) : Decidable (hdGe a b) := by
  unfold hdGe
  infer_instance

/-- Errors raised by body construction. -/
inductive BodyError where
  | zeroAngularVelocity
deriving DecidableEq, Repr

/-- The rotation parameters of a rotating body, after
`RotatingBody::Parameters`. -/
structure RotParams where
  min_radius : ℚ
  mean_radius : ℚ
  max_radius : ℚ
  reference_angle : ℚ
  reference_instant : ℤ
  angular_frequency : ℚ
  right_ascension_of_pole : ℚ
  declination_of_pole : ℚ
deriving DecidableEq, Repr

/-- The full `RotatingBody::Parameters` constructor: the runtime check
"Rotating body cannot have zero angular velocity" rejects a zero angular
frequency; otherwise the fields are stored as given. -/
def mkRotParamsFull (min_radius mean_radius max_radius reference_angle : ℚ)
    (reference_instant : ℤ)
    (angular_frequency right_ascension_of_pole declination_of_pole : ℚ) :
    Except BodyError RotParams :=
  if angular_frequency = 0 then Except.error BodyError.zeroAngularVelocity
  else Except.ok
    { min_radius := min_radius
      mean_radius := mean_radius
      max_radius := max_radius
      reference_angle := reference_angle
      reference_instant := reference_instant
      angular_frequency := angular_frequency
      right_ascension_of_pole := right_ascension_of_pole
      declination_of_pole := declination_of_pole }

/-- The convenience `RotatingBody::Parameters` constructor taking a single
mean radius: delegates to the full constructor with all three radii equal. -/
def mkRotParams (mean_radius reference_angle : ℚ) (reference_instant : ℤ)
    (angular_frequency right_ascension_of_pole declination_of_pole : ℚ) :
    Except BodyError RotParams :=
  mkRotParamsFull mean_radius mean_radius mean_radius reference_angle
    reference_instant angular_frequency right_ascension_of_pole
    declination_of_pole

/-- A rotating body: massive-body parameters plus successfully constructed
rotation parameters. -/
structure RotatingBody where
  gravitational_parameter : ℚ
  rot : RotParams
deriving DecidableEq, Repr

/-- An oblate body carrying a geopotential: a rotating body together with its
geopotential model. -/
structure OblateBody where
  gravitational_parameter : ℚ
  rot : RotParams
  geopotential : Geopotential

/-- Constructs an oblate body from massive-body parameters, rotation
parameters and a geopotential. -/
def mkOblateBody (μ : ℚ) (rot : RotParams) (g : Geopotential) : OblateBody :=
  { gravitational_parameter := μ, rot := rot, geopotential := g }

end Principia

namespace Principia

theorem pinMin_le_init (t : ℤ) (guards : List ℤ) : pinMin t guards ≤ t := by
  induction guards generalizing t with
  | nil => exact le_refl t
  | cons g gs ih => exact le_trans (ih (min t g)) (min_le_left _ _)

theorem pinMin_le_mem (t : ℤ) (guards : List ℤ) (tg : ℤ) (htg : tg ∈ guards) :
    pinMin t guards ≤ tg := by
  induction guards generalizing t with
  | nil => cases htg
  | cons g gs ih =>
      rcases List.mem_cons.mp htg with h | h
      · subst h
        exact le_trans (pinMin_le_init (min t tg) gs) (min_le_right _ _)
      · exact ih (min t g) h

theorem prolong_of_le (e : Ephemeris) (t : ℤ) (h : t ≤ tMaxE e) :
    prolong e t = e := by
  unfold prolong
  rw [dif_pos h]

theorem prolong_of_gt (e : Ephemeris) (t : ℤ) (h : ¬ t ≤ tMaxE e) :
    prolong e t = prolong { e with steps := e.steps + 1 } t := by
  conv_lhs => unfold prolong
  rw [dif_neg h]

/-- Prolonging to `t1` and then to a later `t2` reaches exactly the state of
prolonging directly to `t2`. -/
theorem prolong_prolong (e : Ephemeris) (t1 t2 : ℤ) (h12 : t1 ≤ t2) :
    prolong (prolong e t1) t2 = prolong e t2 := by
  generalize hn : (t1 - tMaxE e).toNat = n
  induction n using Nat.strong_induction_on generalizing e with
  | _ n ih =>
      by_cases h : t1 ≤ tMaxE e
      · rw [prolong_of_le e t1 h]
      · have h2 : ¬ t2 ≤ tMaxE e := fun hc => h (le_trans h12 hc)
        rw [prolong_of_gt e t1 h, prolong_of_gt e t2 h2]
        have hp : 0 < e.step := e.step_pos
        refine ih ((t1 - tMaxE { e with steps := e.steps + 1 }).toNat) ?_ _ rfl
        rw [tMaxE_succ]
        omega

/-- C3: while a Guard pinned at `tg` is live, forgetting up to any instant `t`
removes no sample at or after `tg`; only prefix samples strictly before the
minimum of `t` and all live pin points are removed; and a request that
removes nothing is not an error (it leaves the trajectory unchanged). -/
theorem guard_protects_samples (traj : RootTrajectory) (t tg : ℤ)
    (s : ℤ × Dof) (htg : tg ∈ traj.guards) (hs : s ∈ traj.samples) :
    (tg ≤ s.1 → s ∈ (eventuallyForgetBefore traj t).samples)
    ∧ (s ∉ (eventuallyForgetBefore traj t).samples →
        s.1 < pinMin t traj.guards)
    ∧ (traj.samples.all (fun s2 => decide (pinMin t traj.guards ≤ s2.1)) = true →
        eventuallyForgetBefore traj t = traj) := by
  refine ⟨?_, ?_, ?_⟩
  · intro hts
    have hcut : pinMin t traj.guards ≤ s.1 :=
      le_trans (pinMin_le_mem t traj.guards tg htg) hts
    simp [eventuallyForgetBefore, forgetBefore, List.mem_filter, hs, hcut]
  · intro hsn
    by_contra hlt
    push_neg at hlt
    exact hsn
      (by simp [eventuallyForgetBefore, forgetBefore, List.mem_filter, hs, hlt])
  · intro hall
    have hfull :
        traj.samples.filter (fun s2 => decide (pinMin t traj.guards ≤ s2.1))
          = traj.samples :=
      List.filter_eq_self.mpr (List.all_eq_true.mp hall)
    cases traj with
    | mk samples guards =>
        simp only [eventuallyForgetBefore, forgetBefore] at *
        simp [hfull]

theorem guard_protects_samples_witness :
    ((3 : ℤ) ≤ (5 : ℤ) →
      ((5 : ℤ), (⟨1, 1⟩ : Dof))
        ∈ (eventuallyForgetBefore ⟨[((5 : ℤ), ⟨1, 1⟩)], [(3 : ℤ)]⟩ 10).samples)
    ∧ (((5 : ℤ), (⟨1, 1⟩ : Dof))
          ∉ (eventuallyForgetBefore ⟨[((5 : ℤ), ⟨1, 1⟩)], [(3 : ℤ)]⟩ 10).samples →
        (5 : ℤ) < pinMin 10 [(3 : ℤ)])
    ∧ (([((5 : ℤ), (⟨1, 1⟩ : Dof))]).all
          (fun s2 => decide (pinMin 10 [(3 : ℤ)] ≤ s2.1)) = true →
        eventuallyForgetBefore ⟨[((5 : ℤ), ⟨1, 1⟩)], [(3 : ℤ)]⟩ 10
          = ⟨[((5 : ℤ), ⟨1, 1⟩)], [(3 : ℤ)]⟩) :=
  guard_protects_samples ⟨[(5, ⟨1, 1⟩)], [3]⟩ 10 3 (5, ⟨1, 1⟩)
    (by simp) (by simp)

/-- C9: evaluating a trajectory fails with an `ArgumentError` exactly when the
query time lies outside `[t_min, t_max]`, and succeeds by interpolating the
locally fitted polynomial for every time inside that interval. -/
theorem evaluate_bounds (samples : List (ℤ × Dof)) (f l : ℤ × Dof) (t : ℤ)
    (hf : samples.head? = some f) (hl : samples.getLast? = some l) :
    (evaluateDof samples t = Except.error TrajError.argumentError ↔
      (t < f.1 ∨ l.1 < t))
    ∧ (f.1 ≤ t → t ≤ l.1 →
        evaluateDof samples t = Except.ok (interpAt samples t)) := by
  by_cases hc : t < f.1 ∨ l.1 < t
  · refine ⟨by simp [evaluateDof, hf, hl, hc], ?_⟩
    intro h1 h2
    rcases hc with h | h <;> omega
  · refine ⟨by simp [evaluateDof, hf, hl, hc], ?_⟩
    intro h1 h2
    simp [evaluateDof, hf, hl, hc]

theorem evaluate_bounds_witness :
    (evaluateDof [((0 : ℤ), ⟨1, 2⟩), ((10 : ℤ), ⟨3, 4⟩)] 5
        = Except.error TrajError.argumentError ↔
      ((5 : ℤ) < 0 ∨ (10 : ℤ) < 5))
    ∧ ((0 : ℤ) ≤ (5 : ℤ) → (5 : ℤ) ≤ (10 : ℤ) →
        evaluateDof [((0 : ℤ), ⟨1, 2⟩), ((10 : ℤ), ⟨3, 4⟩)] 5
          = Except.ok (interpAt [((0 : ℤ), ⟨1, 2⟩), ((10 : ℤ), ⟨3, 4⟩)] 5)) :=
  evaluate_bounds [(0, ⟨1, 2⟩), (10, ⟨3, 4⟩)] (0, ⟨1, 2⟩) (10, ⟨3, 4⟩) 5
    rfl rfl

/-- C7: a `HarmonicDamping` constructed from an inner threshold has an outer
threshold equal to three times it, and the default-constructed damping (both
thresholds infinite) also satisfies the relation. -/
theorem damping_threshold_invariant (d : ℚ) :
    (mkHarmonicDamping d).outer_threshold
        = ExtLength.triple (mkHarmonicDamping d).inner_threshold
    ∧ defaultHarmonicDamping.outer_threshold
        = ExtLength.triple defaultHarmonicDamping.inner_threshold :=
  ⟨rfl, rfl⟩

/-- C6: the damping factor σ is 1 at or below the inner threshold, 0 at or
beyond the outer threshold `3 d`, and in between it is the blending
polynomial, whose value and first derivative agree with the constant pieces
at both thresholds (value 1 and derivative 0 at the inner threshold, value 0
and derivative 0 at the outer one). -/
theorem damping_sigma_spec (d r : ℚ) (hd : 0 < d) :
    (r ≤ d → dampingSigma d r = 1)
    ∧ (3 * d ≤ r → dampingSigma d r = 0)
    ∧ (d < r → r < 3 * d → dampingSigma d r = sigmoid d r)
    ∧ (mkHarmonicDamping d).inner_threshold = ExtLength.fin d
    ∧ (mkHarmonicDamping d).outer_threshold = ExtLength.fin (3 * d)
    ∧ sigmoid d d = 1
    ∧ sigmoid d (3 * d) = 0
    ∧ sigmoidDeriv d d = 0
    ∧ sigmoidDeriv d (3 * d) = 0 := by
  have hdne : d ≠ 0 := ne_of_gt hd
  refine ⟨?_, ?_, ?_, rfl, rfl, ?_, ?_, ?_, ?_⟩
  · intro h
    simp [dampingSigma, h]
  · intro h
    have h1 : ¬ r ≤ d := by linarith
    simp [dampingSigma, h1, h]
  · intro h1 h2
    have h1n : ¬ r ≤ d := not_le.mpr h1
    have h2n : ¬ 3 * d ≤ r := not_le.mpr h2
    simp [dampingSigma, h1n, h2n]
  · unfold sigmoid
    field_simp
    ring
  · unfold sigmoid
    field_simp
    ring
  · unfold sigmoidDeriv
    field_simp
    ring
  · unfold sigmoidDeriv
    field_simp
    ring

theorem damping_sigma_spec_witness :
    ((2 : ℚ) ≤ 1 → dampingSigma 1 2 = 1)
    ∧ ((3 : ℚ) * 1 ≤ 2 → dampingSigma 1 2 = 0)
    ∧ ((1 : ℚ) < 2 → (2 : ℚ) < 3 * 1 → dampingSigma 1 2 = sigmoid 1 2)
    ∧ (mkHarmonicDamping 1).inner_threshold = ExtLength.fin 1
    ∧ (mkHarmonicDamping 1).outer_threshold = ExtLength.fin (3 * 1)
    ∧ sigmoid 1 1 = 1
    ∧ sigmoid 1 (3 * 1) = 0
    ∧ sigmoidDeriv 1 1 = 0
    ∧ sigmoidDeriv 1 (3 * 1) = 0 :=
  damping_sigma_spec 1 2 (by norm_num)

/-- C10: constructing rotation parameters with zero angular frequency fails
the runtime check, so every successfully constructed rotating body —
including every oblate body carrying a geopotential — has a nonzero angular
frequency about its polar axis. -/
theorem rotating_body_nonzero_angular_velocity
    (mr ra : ℚ) (ri : ℤ) (ω rap dp : ℚ) (p : RotParams)
    (μ : ℚ) (g : Geopotential) (mr2 ra2 : ℚ) (ri2 : ℤ) (rap2 dp2 : ℚ)
    (h : mkRotParams mr ra ri ω rap dp = Except.ok p) :
    p.angular_frequency ≠ 0
    ∧ (mkOblateBody μ p g).rot.angular_frequency ≠ 0
    ∧ mkRotParamsFull mr2 mr2 mr2 ra2 ri2 0 rap2 dp2
        = Except.error BodyError.zeroAngularVelocity := by
  unfold mkRotParams mkRotParamsFull at h
  by_cases hω : ω = 0
  · rw [if_pos hω] at h
    cases h
  · rw [if_neg hω] at h
    have hp := Except.ok.inj h
    refine ⟨?_, ?_, ?_⟩
    · rw [← hp]
      simpa using hω
    · rw [mkOblateBody, ← hp]
      simpa using hω
    · unfold mkRotParamsFull
      rw [if_pos rfl]

/-- C1: prolongation is deterministic: two ephemerides constructed from
identical bodies, initial state, integrator and fixed step, prolonged to the
same instant, carry identical samples, and every position query at any
instant returns identical results in both runs. -/
theorem prolong_deterministic (bodies : List ℚ) (s0 : SysState) (epoch : ℤ)
    (params : FixedStepParameters) (e1 e2 : Ephemeris) (t tq : ℤ) (b : ℕ)
    (h1 : e1 = mkEphemeris bodies s0 epoch params)
    (h2 : e2 = mkEphemeris bodies s0 epoch params) :
    ephSamples (prolong e1 t) = ephSamples (prolong e2 t)
    ∧ ephEvaluatePosition (prolong e1 t) b tq
        = ephEvaluatePosition (prolong e2 t) b tq := by
  subst h1
  subst h2
  exact ⟨rfl, rfl⟩

theorem prolong_deterministic_witness :
    ephSamples (prolong (mkEphemeris [1] [⟨0, 0⟩] 0 ⟨id, 1, Nat.one_pos⟩) 3)
        = ephSamples (prolong (mkEphemeris [1] [⟨0, 0⟩] 0 ⟨id, 1, Nat.one_pos⟩) 3)
    ∧ ephEvaluatePosition
          (prolong (mkEphemeris [1] [⟨0, 0⟩] 0 ⟨id, 1, Nat.one_pos⟩) 3) 0 1
        = ephEvaluatePosition
          (prolong (mkEphemeris [1] [⟨0, 0⟩] 0 ⟨id, 1, Nat.one_pos⟩) 3) 0 1 :=
  prolong_deterministic [1] [⟨0, 0⟩] 0 ⟨id, 1, Nat.one_pos⟩
    (mkEphemeris [1] [⟨0, 0⟩] 0 ⟨id, 1, Nat.one_pos⟩)
    (mkEphemeris [1] [⟨0, 0⟩] 0 ⟨id, 1, Nat.one_pos⟩) 3 1 0 rfl rfl

/-- C2: prolonging to `t1` and then to a later `t2` yields the same position
query at `t2` as prolonging to `t2` directly, and prolonging to an instant
at or before the current horizon is a no-op. -/
theorem prolong_incremental (e : Ephemeris) (t1 t2 t3 : ℤ) (b : ℕ)
    (h12 : t1 < t2) (h3 : t3 ≤ tMaxE e) :
    ephEvaluatePosition (prolong (prolong e t1) t2) b t2
        = ephEvaluatePosition (prolong e t2) b t2
    ∧ prolong e t3 = e :=
  ⟨by rw [prolong_prolong e t1 t2 (le_of_lt h12)], prolong_of_le e t3 h3⟩

theorem prolong_incremental_witness :
    ephEvaluatePosition
        (prolong (prolong (mkEphemeris [1] [⟨0, 0⟩] 0 ⟨id, 1, Nat.one_pos⟩) 1) 2)
        0 2
      = ephEvaluatePosition
        (prolong (mkEphemeris [1] [⟨0, 0⟩] 0 ⟨id, 1, Nat.one_pos⟩) 2) 0 2
    ∧ prolong (mkEphemeris [1] [⟨0, 0⟩] 0 ⟨id, 1, Nat.one_pos⟩) 0
        = mkEphemeris [1] [⟨0, 0⟩] 0 ⟨id, 1, Nat.one_pos⟩ :=
  prolong_incremental (mkEphemeris [1] [⟨0, 0⟩] 0 ⟨id, 1, Nat.one_pos⟩)
    1 2 0 0 (by norm_num)
    (by simp [mkEphemeris, tMaxE])

/-- C4: the prognosticator retains at most one pending request — a submission
atomically overwrites the pending slot — and when three requests arrive
before the first computation finishes, exactly one result is published and
it is derived from the third request. -/
theorem prognosticator_last_request_wins (P R : Type) (compute : P → R)
    (p1 p2 p3 : P) (s : Prognosticator P R) (p : P) :
    (progStep compute s (ProgEvent.submit p)).pending = some p
    ∧ (progStep compute s (ProgEvent.submit p)).published = s.published
    ∧ (progRun compute ⟨none, none, []⟩ (threeRequestsScenario p1 p2 p3)).published
        = [compute p3] := by
  refine ⟨rfl, rfl, ?_⟩
  simp [progRun, threeRequestsScenario, progStep]

theorem bundleJoin_foldl {σ : Type} (tasks : List (BundleTask σ)) (s : σ)
    (acc : Status) :
    tasks.foldl
        (fun (acc : σ × Status) task =>
          ((task acc.1).1,
           match acc.2 with
           | Status.ok => (task acc.1).2
           | Status.error c => Status.error c))
        (s, acc)
      = (applyAll tasks s,
         match acc with
         | Status.ok => firstFailure (recordedStatuses tasks s)
         | Status.error c => Status.error c) := by
  induction tasks generalizing s acc with
  | nil => cases acc <;> simp [applyAll, recordedStatuses, firstFailure]
  | cons task rest ih =>
      simp only [List.foldl_cons]
      rw [ih]
      cases acc with
      | ok =>
          cases h : (task s).2 with
          | ok => simp [applyAll, recordedStatuses, firstFailure, h]
          | error c => simp [applyAll, recordedStatuses, firstFailure, h]
      | error c => simp [applyAll, recordedStatuses, firstFailure]

/-- C5: `Join` runs every enqueued task to completion — the final state is the
one obtained by applying every task's side effect in order, with no
fail-fast cancellation — and the status it reports is the first recorded
failure (OK when every task succeeded). -/
theorem bundle_join_spec (σ : Type) (tasks : List (BundleTask σ)) (s : σ) :
    (bundleJoin tasks s).1 = applyAll tasks s
    ∧ (bundleJoin tasks s).2 = firstFailure (recordedStatuses tasks s) := by
  unfold bundleJoin
  rw [bundleJoin_foldl]
  exact ⟨rfl, rfl⟩

theorem suffixMaxes_chain (cs : List ℚ) :
    List.Chain' (fun a b => b ≤ a) (suffixMaxes cs) := by
  induction cs with
  | nil => simp [suffixMaxes]
  | cons c rest ih =>
      rw [suffixMaxes]
      cases hrest : suffixMaxes rest with
      | nil => simp
      | cons x xs =>
          rw [hrest] at ih
          simp only [hrest, List.headD_cons]
          exact List.Chain'.cons (le_max_right c x) ih

theorem hdGe_mk (a b : ℚ) (hba : b ≤ a) :
    hdGe (mkHarmonicDamping a) (mkHarmonicDamping b) := by
  simpa [hdGe, hdLe, mkHarmonicDamping, ExtLength.le] using hba

/-- C8: in a geopotential the per-degree dampings are monotonically ordered —
each damping keeps effect out to at least as far a distance as the
next-higher degree — and the degree-2 sectoral damping is ordered between
the dampings of degrees 2 and 3. -/
theorem geopotential_damping_ordered (cs : List ℚ) (sc : ℚ)
    (h2 : 2 ≤ cs.length) :
    List.Chain' hdGe (mkGeopotential cs sc).degree_damping
    ∧ hdLe ((mkGeopotential cs sc).degree_damping.getD 3 defaultHarmonicDamping)
        (mkGeopotential cs sc).sectoral_damping
    ∧ hdLe (mkGeopotential cs sc).sectoral_damping
        ((mkGeopotential cs sc).degree_damping.getD 2 defaultHarmonicDamping) := by
  cases cs with
  | nil => exact absurd h2 (by simp)
  | cons c1 tl =>
      cases tl with
      | nil => exact absurd h2 (by simp)
      | cons c2 cs2 =>
          have hchain := suffixMaxes_chain (c1 :: c2 :: cs2)
          simp only [suffixMaxes, List.headD_cons] at hchain ⊢
          simp only [mkGeopotential, suffixMaxes, List.headD_cons,
            List.map_cons, List.getD_cons_succ, List.getD_cons_zero]
          refine ⟨?_, ?_, ?_⟩
          · refine List.Chain'.cons ?_ (List.Chain'.cons ?_ ?_)
            · simp [hdGe, hdLe, defaultHarmonicDamping, ExtLength.le]
            · simp [hdGe, hdLe, defaultHarmonicDamping, mkHarmonicDamping,
                ExtLength.le]
            · rw [← List.map_cons, ← List.map_cons, List.chain'_map]
              exact hchain.imp (fun a b hba => hdGe_mk a b hba)
          · exact hdGe_mk _ _
              (le_min (le_max_right sc _) (le_max_right c1 _))
          · exact hdGe_mk _ _ (min_le_right _ _)

theorem geopotential_damping_ordered_witness :
    List.Chain' hdGe (mkGeopotential [5, 3] 4).degree_damping
    ∧ hdLe ((mkGeopotential [5, 3] 4).degree_damping.getD 3
          defaultHarmonicDamping)
        (mkGeopotential [5, 3] 4).sectoral_damping
    ∧ hdLe (mkGeopotential [5, 3] 4).sectoral_damping
        ((mkGeopotential [5, 3] 4).degree_damping.getD 2
          defaultHarmonicDamping) :=
  geopotential_damping_ordered [5, 3] 4 (by simp)

theorem rotating_body_nonzero_angular_velocity_witness :
    RotParams.angular_frequency
        ⟨1, 1, 1, 0, 0, 1, 0, 0⟩ ≠ 0
    ∧ (mkOblateBody 7 ⟨1, 1, 1, 0, 0, 1, 0, 0⟩
          (mkGeopotential [5, 3] 4)).rot.angular_frequency ≠ 0
    ∧ mkRotParamsFull 2 2 2 0 0 0 0 0
        = Except.error BodyError.zeroAngularVelocity :=
  rotating_body_nonzero_angular_velocity 1 0 0 1 0 0
    ⟨1, 1, 1, 0, 0, 1, 0, 0⟩ 7 (mkGeopotential [5, 3] 4) 2 0 0 0 0
    (by norm_num [mkRotParams, mkRotParamsFull])

end Principia
